import Mathlib

/-!
Verification of the libra repository's state-synchronizer client and
benchmark transaction generator against its natural-language specification.

Part 1: shallow embedding of `src/benchmark/src/txn_generator.rs`.
Addresses are modelled as natural numbers handed out by the wallet
(`WalletLibrary` is modelled as the counter of the next fresh address).
Rust panics (division by zero, `step_by(0)`, out-of-bounds indexing) are
modelled by returning `none`.
-/

/-- The amount of coins initially minted to all generated accounts
(`const FREE_LUNCH: u64 = 1_000_000`). -/
def FREE_LUNCH : Nat := 1000000

/-- `client::AccountStatus`; only the `Local` variant is used in this file. -/
inductive AccountStatus where
  | Local
deriving DecidableEq, Repr

/-- `client::AccountData`: address, optional keypair, sequence number, status.
The keypair is abstracted to a presence flag. -/
structure AccountData where
  address : Nat
  key_pair : Option Unit
  sequence_number : Nat
  status : AccountStatus
deriving DecidableEq, Repr

/-- A transaction program (`types::transaction::Program`), restricted to the
two programs this file encodes: transfers and mints. -/
inductive Program where
  | transfer (receiver : Nat) (num_coins : Nat)
  | mint (receiver : Nat) (amount : Nat)
deriving DecidableEq, Repr

/-- `LoadRequest`: the write branch carries the signed transaction's sender
address, sequence number and program. -/
inductive LoadRequest where
  | WriteRequest (sender_address : Nat) (sequence_number : Nat) (program : Program)
deriving DecidableEq, Repr

/-- Coins sent by a request's program. -/
def LoadRequest.sentCoins : LoadRequest → Nat
  | .WriteRequest _ _ (.transfer _ c) => c
  | .WriteRequest _ _ (.mint _ a) => a

/-- `gen_next_account`: draw the next fresh address from the wallet; sequence
number starts at 0, no keypair, status `Local`. -/
def gen_next_account (wallet : Nat) : AccountData × Nat :=
  ({ address := wallet, key_pair := none, sequence_number := 0, status := .Local },
   wallet + 1)

/-- `gen_accounts_from_wallet`: create `num_accounts` fresh accounts. -/
def gen_accounts_from_wallet (wallet : Nat) (num_accounts : Nat) : List AccountData × Nat :=
  match num_accounts with
  | 0 => ([], wallet)
  | m + 1 =>
    let p := gen_next_account wallet
    let rest := gen_accounts_from_wallet p.2 m
    (p.1 :: rest.1, rest.2)

/-- `gen_submit_transaction_request`: sign a transaction for `sender`.
Signing may fail (`create_signed_txn` returns `Result`); the signer's outcome
is the `signOk` oracle. On success the sender's sequence number is
incremented after the request is built; on failure it is left unchanged. -/
def gen_submit_transaction_request (signOk : Bool) (program : Program)
    (sender : AccountData) : Option LoadRequest × AccountData :=
  if signOk then
    (some (.WriteRequest sender.address sender.sequence_number program),
     { sender with sequence_number := sender.sequence_number + 1 })
  else
    (none, sender)

/-- `gen_transfer_txn_request`: transfer `num_coins` from `sender` to
`receiver`, signed by the wallet. -/
def gen_transfer_txn_request (signOk : Bool) (sender : AccountData)
    (receiver : Nat) (num_coins : Nat) : Option LoadRequest × AccountData :=
  gen_submit_transaction_request signOk (.transfer receiver num_coins) sender

/-- Rust `slice::chunks(k)`: split into consecutive chunks of size `k`, the
last possibly shorter. `chunks(0)` panics in Rust; callers in this
development guard `k ≠ 0`, so the 0 case returns `[]` and is never reached. -/
def chunks {α : Type} : Nat → List α → List (List α)
  | _, [] => []
  | 0, _ :: _ => []
  | k + 1, a :: l => (a :: l).take (k + 1) :: chunks (k + 1) (l.drop k)
termination_by _ l => l.length
decreasing_by simp [List.length_drop]; omega

/-- Rust `Iterator::step_by(k)`: keep the first element, then every `k`-th.
`step_by(0)` panics in Rust; callers guard `k ≠ 0`. -/
def stepBy {α : Type} : Nat → List α → List α
  | _, [] => []
  | k, a :: l => a :: stepBy k (l.drop (k - 1))
termination_by _ l => l.length
decreasing_by simp [List.length_drop]; omega

/-- `AccountStorm` (benchmark load generator). -/
structure AccountStorm where
  wallet : Nat
  num_accounts : Nat
  genesis_accounts : List AccountData
  round_accounts : List (List Nat)
  accounts_to_verify : List AccountData
deriving DecidableEq, Repr

/-- `AccountStorm::new()`: empty generator over a fresh wallet. -/
def AccountStorm.new : AccountStorm :=
  { wallet := 0
    num_accounts := 0
    genesis_accounts := []
    round_accounts := []
    accounts_to_verify := [] }

/-- `AccountStorm::gen_accounts`: record `num_accounts`, create the genesis
accounts and `num_accounts * num_accounts` round-1 accounts, record the
round-1 addresses, and keep every `num_accounts`-th round-1 account for
verification. `step_by(0)` panics when `num_accounts = 0`, modelled as
`none`. -/
def AccountStorm.gen_accounts (storm : AccountStorm) (num_accounts : Nat) :
    Option AccountStorm :=
  let g := gen_accounts_from_wallet storm.wallet num_accounts
  let r := gen_accounts_from_wallet g.2 (num_accounts * num_accounts)
  if num_accounts = 0 then
    none
  else
    some { storm with
           wallet := r.2
           num_accounts := num_accounts
           genesis_accounts := g.1
           round_accounts := storm.round_accounts ++ [r.1.map (·.address)]
           accounts_to_verify := stepBy num_accounts r.1 }

/-- The inner `flat_map` body of `AccountStorm::gen_round_load`: generate one
transfer of `transfer` coins from `sender` to each recipient in order,
threading the (local) sender's sequence number; failed signings produce no
request. -/
def gen_transfers_to (signOk : Bool) (recipients : List Nat) (transfer : Nat)
    (sender : AccountData) : List LoadRequest × AccountData :=
  match recipients with
  | [] => ([], sender)
  | r :: rs =>
    let t1 := gen_transfer_txn_request signOk sender r transfer
    let rest := gen_transfers_to signOk rs transfer t1.2
    match t1.1 with
    | some req => (req :: rest.1, rest.2)
    | none => rest

/-- The fresh local sender copy built inside `gen_round_load`'s closure. -/
def localSender (address : Nat) : AccountData :=
  { address := address, key_pair := none, sequence_number := 0, status := .Local }

/-- `AccountStorm::gen_round_load`: rounds above 1 return no load. Otherwise
each genesis account sends `FREE_LUNCH / num_accounts` coins to each of its
`num_accounts` round-1 recipients. `FREE_LUNCH / 0` panics when
`num_accounts = 0`, and `round_accounts[0]` panics when no accounts were
generated; both are modelled as `none`. `self` is never mutated (the code
transfers from fresh local sender copies), so the storm is returned
unchanged. -/
def AccountStorm.gen_round_load (storm : AccountStorm) (signOk : Bool)
    (round : Nat) : Option (List LoadRequest × AccountStorm) :=
  if round > 1 then
    some ([], storm)
  else if storm.num_accounts = 0 then
    none
  else
    match storm.round_accounts with
    | [] => none
    | round1_addrs :: _ =>
      let transfer := FREE_LUNCH / storm.num_accounts
      let reqs :=
        (storm.genesis_accounts.zip (chunks storm.num_accounts round1_addrs)).flatMap
          (fun p => (gen_transfers_to signOk p.2 transfer (localSender p.1.address)).1)
      some (reqs, storm)

/-!
Part 2: shallow embedding of `src/state_synchronizer/src/synchronizer.rs`
(the `StateSynchronizer` handle and `StateSyncClient`), together with a
model of the coordinator's command handling. The coordinator itself
(`coordinator.rs`) is not part of the sources; its processing of commands
is modelled from the spec where noted.

The unbounded mpsc channel feeding the coordinator is modelled as a queue
of commands plus a liveness flag: sending appends to the queue and fails
exactly when the receiving coordinator has been dropped. Each one-shot
reply channel is modelled by the value the coordinator eventually sends on
it: `some x` if it replies `x`, `none` if it drops the callback (the
oneshot `Canceled` error).
-/

/-- `types::ledger_info::LedgerInfoWithSignatures`, reduced to the field the
synchronizer consumes: the target version it certifies. -/
structure LedgerInfoWithSignatures where
  version : Nat
deriving DecidableEq, Repr

/-- `CoordinatorMessage`: the commands a client can enqueue. One-shot reply
senders are identified by a callback id. -/
inductive CoordinatorMessage where
  | Requested (target : LedgerInfoWithSignatures) (cb : Nat)
  | Commit (version : Nat)
  | GetState (cb : Nat)
deriving DecidableEq, Repr

/-- State of the coordinator's inbound mpsc channel: whether the coordinator
(receiver) is still alive, and the commands enqueued so far. -/
structure ChannelState where
  isOpen : Bool
  queue : List CoordinatorMessage
deriving DecidableEq, Repr

/-- Errors a client operation can surface: the mpsc `SendError` when the
coordinator receiver is gone, and the oneshot `Canceled` error when the
coordinator dropped the reply sender. -/
inductive ClientError where
  | sendError
  | canceled
deriving DecidableEq, Repr

/-- `StateSyncClient::sync_to`: enqueue `Requested(target, cb)` then await
the oneshot reply. Fails with `sendError` if the command channel is closed,
with `canceled` if the coordinator drops the callback, and otherwise
returns the coordinator's boolean reply. -/
def sync_to (st : ChannelState) (target : LedgerInfoWithSignatures)
    (cb : Nat) (reply : Option Bool) : ChannelState × Except ClientError Bool :=
  if st.isOpen then
    ({ st with queue := st.queue ++ [.Requested target cb] },
     match reply with
     | some b => .ok b
     | none => .error .canceled)
  else
    (st, .error .sendError)

/-- `StateSyncClient::commit`: enqueue `Commit(version)`; succeeds as soon
as the send succeeds, fails with `sendError` if the channel is closed. No
reply is awaited and no retry is attempted. -/
def commit (st : ChannelState) (version : Nat) :
    ChannelState × Except ClientError Unit :=
  if st.isOpen then
    ({ st with queue := st.queue ++ [.Commit version] }, .ok ())
  else
    (st, .error .sendError)

/-- `StateSyncClient::get_state`: enqueue `GetState(cb)` then await the
oneshot reply carrying the coordinator's version. -/
def get_state (st : ChannelState) (cb : Nat) (reply : Option Nat) :
    ChannelState × Except ClientError Nat :=
  if st.isOpen then
    ({ st with queue := st.queue ++ [.GetState cb] },
     match reply with
     | some v => .ok v
     | none => .error .canceled)
  else
    (st, .error .sendError)

/-- Modelled from the spec: the coordinator-private `SyncCursor`
(`coordinator.rs` is not among the sources). `known_version` is the highest
locally committed version, `highest_target_seen` the highest version proven
by any observed header, `waiters` the pending requests as
(target version, callback) pairs. -/
structure SyncCursor where
  known_version : Nat
  highest_target_seen : Nat
  waiters : List (Nat × Nat)
deriving DecidableEq, Repr

/-- Modelled from the spec: the events the coordinator loop processes — a
client command, a successfully verified and applied chunk covering
`[start, stop]`, or exhaustion of the retry budget for a target version. -/
inductive CoordinatorEvent where
  | msg (m : CoordinatorMessage)
  | chunkSuccess (start stop : Nat)
  | retryExhausted (target : Nat)
deriving DecidableEq, Repr

/-- A reply the coordinator emits on a one-shot callback channel: the
boolean outcome of a `sync_to` waiter, or the version answering `GetState`. -/
inductive CoordinatorOutput where
  | syncResult (cb : Nat) (outcome : Bool)
  | stateResult (cb : Nat) (version : Nat)
deriving DecidableEq, Repr

/-- Modelled from the spec: resolve with `true` and remove every waiter
whose target is at most the (new) known version. -/
def resolveReady (known : Nat) (waiters : List (Nat × Nat)) :
    List CoordinatorOutput × List (Nat × Nat) :=
  ((waiters.filter (fun w => w.1 ≤ known)).map (fun w => .syncResult w.2 true),
   waiters.filter (fun w => ¬ w.1 ≤ known))

/-- Modelled from the spec (§4.3 transitions, `coordinator.rs` not among the
sources): one step of the coordinator loop.
On `Requested(t, cb)`: reply `true` at once if `t.version ≤ known_version`;
else register the waiter and raise `highest_target_seen`.
On `Commit(v)`: if `v > known_version`, advance `known_version` to `v` and
resolve every waiter with target ≤ v with `true`.
On `GetState(cb)`: reply with `known_version`; no state change.
On a verified applied chunk `[start, stop]`: accepted only if
`start = known_version + 1` and `start ≤ stop`; then `known_version := stop`
and waiters with target ≤ stop resolve `true`; a gap or overlap is a
verification failure (retry, no state change).
On retry exhaustion for target `v`: resolve the waiters for `v` with
`false`, drop them, and fall `highest_target_seen` back to the best
still-pending target. -/
def processEvent (c : SyncCursor) (e : CoordinatorEvent) :
    SyncCursor × List CoordinatorOutput :=
  match e with
  | .msg (.Requested t cb) =>
    if t.version ≤ c.known_version then
      (c, [.syncResult cb true])
    else
      ({ c with waiters := c.waiters ++ [(t.version, cb)]
                highest_target_seen := max c.highest_target_seen t.version }, [])
  | .msg (.Commit v) =>
    if v > c.known_version then
      let p := resolveReady v c.waiters
      ({ c with known_version := v, waiters := p.2 }, p.1)
    else
      (c, [])
  | .msg (.GetState cb) =>
    (c, [.stateResult cb c.known_version])
  | .chunkSuccess start stop =>
    if start = c.known_version + 1 ∧ start ≤ stop then
      let p := resolveReady stop c.waiters
      ({ c with known_version := stop, waiters := p.2 }, p.1)
    else
      (c, [])
  | .retryExhausted v =>
    ({ c with waiters := c.waiters.filter (fun w => ¬ w.1 = v)
              highest_target_seen :=
                ((c.waiters.filter (fun w => ¬ w.1 = v)).map Prod.fst).foldr
                  max c.known_version },
     (c.waiters.filter (fun w => w.1 = v)).map (fun w => .syncResult w.2 false))

/-- Run the coordinator loop over a sequence of events, keeping the cursor. -/
def runEvents (c : SyncCursor) (es : List CoordinatorEvent) : SyncCursor :=
  es.foldl (fun s e => (processEvent s e).1) c

/-- `StateSynchronizer`: the handle owning the coordinator's runtime and the
send side of its command channel. Channels are identified by the id of the
queue they feed, so that sharing is expressible. -/
structure StateSynchronizer where
  coordinator_sender : Nat
deriving DecidableEq, Repr

/-- `StateSyncClient` as held behind the `Arc` returned by `create_client`:
a clone of the handle's command sender. -/
structure StateSyncClient where
  coordinator_sender : Nat
deriving DecidableEq, Repr

/-- `StateSynchronizer::create_client`: wrap a clone of the coordinator
sender in a fresh client handle. -/
def StateSynchronizer.create_client (s : StateSynchronizer) : StateSyncClient :=
  { coordinator_sender := s.coordinator_sender }

/-- Cloning the `Arc<StateSyncClient>` yields a handle to the very same
client (and hence the same underlying sender). -/
def StateSyncClient.cloneArc (c : StateSyncClient) : StateSyncClient := c

/-- The queues of all live channels, indexed by channel id. -/
def ChannelWorld : Type := Nat → List CoordinatorMessage

/-- Sending a command through a client appends it to the queue the client's
sender feeds and touches no other queue. -/
def sendVia (w : ChannelWorld) (c : StateSyncClient) (m : CoordinatorMessage) :
    ChannelWorld :=
  fun i => if i = c.coordinator_sender then w i ++ [m] else w i

/-- Modelled from the spec's words (§4.2: all three client operations are
implemented as "send command, await a one-shot response"): a `commit` that,
after a successful send, awaits a one-shot acknowledgement from the
coordinator. Defined only to compare against the source's `commit`, which
awaits nothing after the send. -/
def commit_spec (st : ChannelState) (version : Nat) (reply : Option Unit) :
    ChannelState × Except ClientError Unit :=
  if st.isOpen then
    ({ st with queue := st.queue ++ [.Commit version] },
     match reply with
     | some _ => .ok ()
     | none => .error .canceled)
  else
    (st, .error .sendError)

/-!
Part 3: helper lemmas.
-/

theorem gen_transfers_to_true_map_sentCoins (rs : List Nat) (t : Nat) (s : AccountData) :
    ((gen_transfers_to true rs t s).1).map LoadRequest.sentCoins =
      List.replicate rs.length t := by
  induction rs generalizing s with
  | nil => rfl
  | cons r rs ih =>
    simp [gen_transfers_to, gen_transfer_txn_request, gen_submit_transaction_request,
          LoadRequest.sentCoins, List.replicate_succ, ih]

theorem gen_transfers_to_sentCoins_mem (signOk : Bool) (rs : List Nat) (t : Nat)
    (s : AccountData) (req : LoadRequest) (hreq : req ∈ (gen_transfers_to signOk rs t s).1) :
    req.sentCoins = t := by
  induction rs generalizing s with
  | nil => simp [gen_transfers_to] at hreq
  | cons r rs ih =>
    cases signOk with
    | true =>
      simp [gen_transfers_to, gen_transfer_txn_request,
            gen_submit_transaction_request] at hreq
      rcases hreq with h | h
      · subst h; rfl
      · exact ih _ h
    | false =>
      simp [gen_transfers_to, gen_transfer_txn_request,
            gen_submit_transaction_request] at hreq
      exact ih _ hreq

theorem gen_accounts_from_wallet_length (w n : Nat) :
    (gen_accounts_from_wallet w n).1.length = n := by
  induction n generalizing w with
  | zero => rfl
  | succ m ih => simp [gen_accounts_from_wallet, ih]

theorem chunks_cons_of_pos {α : Type} (k : Nat) (l : List α) (hk : 0 < k)
    (hl : l ≠ []) : chunks k l = l.take k :: chunks k (l.drop k) := by
  match k, l with
  | 0, _ => omega
  | k + 1, [] => exact absurd rfl hl
  | k + 1, a :: l => simp [chunks]

theorem chunks_mul {α : Type} (k : Nat) (hk : 0 < k) (m : Nat) (l : List α)
    (hl : l.length = m * k) :
    (chunks k l).length = m ∧ ∀ c ∈ chunks k l, c.length = k := by
  induction m generalizing l with
  | zero =>
    have : l = [] := List.length_eq_zero.mp (by omega)
    subst this
    cases k with
    | zero => omega
    | succ j => simp [chunks]
  | succ m ih =>
    have hne : l ≠ [] := by
      intro h
      subst h
      simp at hl
      omega
    rw [chunks_cons_of_pos k l hk hne]
    have hlen : l.length = m * k + k := by rw [hl]; ring
    have hdrop : (l.drop k).length = m * k := by
      simp [List.length_drop]
      omega
    obtain ⟨ih1, ih2⟩ := ih (l.drop k) hdrop
    refine ⟨by simp [ih1], ?_⟩
    intro c hc
    rcases List.mem_cons.mp hc with h | h
    · subst h
      simp [List.length_take]
      omega
    · exact ih2 c h

/-!
Part 4: the claims, one theorem each.
-/

/-- C9: `gen_submit_transaction_request` increments the sender's sequence
number by exactly one when it returns a request (signing succeeded), and
leaves the sender untouched when signing fails, so failed generations never
consume a sequence number. -/
theorem gen_submit_seq_number (p : Program) (a : AccountData) :
    (gen_submit_transaction_request true p a).1.isSome = true ∧
    (gen_submit_transaction_request true p a).2.sequence_number =
      a.sequence_number + 1 ∧
    (gen_submit_transaction_request false p a).1 = none ∧
    (gen_submit_transaction_request false p a).2 = a := by
  simp [gen_submit_transaction_request]

/-- C10: for every round above 1, `AccountStorm::gen_round_load` returns the
empty load and the generator's state unchanged; only rounds 0 and 1 produce
transfer requests. -/
theorem gen_round_load_late_rounds (storm : AccountStorm) (signOk : Bool)
    (round : Nat) (h : 1 < round) :
    storm.gen_round_load signOk round = some ([], storm) := by
  simp [AccountStorm.gen_round_load, h]

/-- Witness for C10 at round 2 on a fresh generator. -/
theorem gen_round_load_late_rounds_witness :
    AccountStorm.new.gen_round_load true 2 = some ([], AccountStorm.new) :=
  gen_round_load_late_rounds AccountStorm.new true 2 (by decide)

/-- C8: `gen_round_load` on a generator whose `num_accounts` is 0 — as
`new()` leaves it — computes `FREE_LUNCH / 0` for rounds ≤ 1, which panics
in Rust (modelled as `none`): the operation never returns a value. -/
theorem gen_round_load_div_by_zero (storm : AccountStorm) (signOk : Bool)
    (round : Nat) (h0 : storm.num_accounts = 0) (hr : round ≤ 1) :
    AccountStorm.new.num_accounts = 0 ∧
    storm.gen_round_load signOk round = none := by
  refine ⟨rfl, ?_⟩
  have : ¬ round > 1 := by omega
  simp [AccountStorm.gen_round_load, this, h0]

/-- Witness for C8: a fresh generator at round 1. -/
theorem gen_round_load_div_by_zero_witness :
    AccountStorm.new.num_accounts = 0 ∧
    AccountStorm.new.gen_round_load true 1 = none :=
  gen_round_load_div_by_zero AccountStorm.new true 1 (by decide) (by decide)

theorem processEvent_known_version_le (c : SyncCursor) (e : CoordinatorEvent) :
    c.known_version ≤ (processEvent c e).1.known_version := by
  cases e with
  | msg m =>
    cases m with
    | Requested t cb =>
      by_cases h : t.version ≤ c.known_version <;> simp [processEvent, h]
    | Commit v =>
      by_cases h : v > c.known_version <;> simp [processEvent, resolveReady, h]
      omega
    | GetState cb => simp [processEvent]
  | chunkSuccess start stop =>
    by_cases h : start = c.known_version + 1 ∧ start ≤ stop
    · obtain ⟨h1, h2⟩ := h
      subst h1
      simp [processEvent, resolveReady, h2]
      omega
    · simp [processEvent, resolveReady, h]
  | retryExhausted v => simp [processEvent]

/-- C2 (amended): `sync_to` and `get_state` are each implemented as send one
command to the coordinator's queue, then await a one-shot response for the
outcome; `commit` sends its single `Commit` command and returns `Ok(())` as
soon as the send succeeds, awaiting no response. Every operation enqueues
exactly its own one command when the channel is open and nothing when it is
closed, and none reads or writes coordinator sync state: each outcome is a
function of the channel liveness and — for `sync_to` and `get_state` — the
one-shot reply alone (their outcome on any channel equals their outcome on
an empty channel with the same liveness). -/
theorem client_ops_single_command (st : ChannelState)
    (t : LedgerInfoWithSignatures) (cb v : Nat) (rb : Option Bool)
    (rn : Option Nat) :
    ((sync_to st t cb rb).1.queue =
       if st.isOpen then st.queue ++ [.Requested t cb] else st.queue) ∧
    ((commit st v).1.queue =
       if st.isOpen then st.queue ++ [.Commit v] else st.queue) ∧
    ((get_state st cb rn).1.queue =
       if st.isOpen then st.queue ++ [.GetState cb] else st.queue) ∧
    ((sync_to st t cb rb).2 = (sync_to ⟨st.isOpen, []⟩ t cb rb).2) ∧
    ((commit st v).2 =
       if st.isOpen then Except.ok () else Except.error .sendError) ∧
    ((get_state st cb rn).2 = (get_state ⟨st.isOpen, []⟩ cb rn).2) := by
  cases h : st.isOpen <;>
    simp [sync_to, commit, get_state, h]

/-- Counterexample to C2 as stated: `commit` does not await a one-shot
response channel for its outcome. On an open channel where the coordinator
never acknowledges anything (every reply channel dropped), the source's
`commit` still returns `Ok(())`, whereas a commit implemented as the spec
describes all three operations — send, then await a one-shot outcome —
would surface the canceled error. -/
theorem commit_no_oneshot_counterexample :
    (commit ⟨true, []⟩ 4).2 = Except.ok () ∧
    (commit_spec ⟨true, []⟩ 4 none).2 = Except.error ClientError.canceled ∧
    (commit ⟨true, []⟩ 4).2 ≠ (commit_spec ⟨true, []⟩ 4 none).2 := by
  refine ⟨rfl, rfl, ?_⟩
  intro h
  exact Except.noConfusion h

/-- C4: the coordinator answers `GetState` with its current `known_version`
and changes no sync state; the client's `get_state` future then resolves
with exactly that version while the coordinator is alive (and with the
send error once it is gone). -/
theorem get_state_reports_known_version (c : SyncCursor) (cb : Nat)
    (st : ChannelState) :
    processEvent c (.msg (.GetState cb)) =
      (c, [.stateResult cb c.known_version]) ∧
    ((get_state st cb (some c.known_version)).2 =
       if st.isOpen then Except.ok c.known_version
       else Except.error .sendError) := by
  cases h : st.isOpen <;> simp [processEvent, get_state, h]

/-- C5: `commit(v)` returns `Ok(())` exactly when `Commit(v)` was delivered
to the coordinator's queue, and errors exactly when the coordinator is gone
(channel closed); in the error case nothing is enqueued — a single send
attempt, no retry. -/
theorem commit_send_contract (st : ChannelState) (v : Nat) :
    ((commit st v).2 = .ok () ↔ st.isOpen = true) ∧
    ((commit st v).2 = .error .sendError ↔ st.isOpen = false) ∧
    ((commit st v).1.queue = st.queue ++ [.Commit v] ↔ st.isOpen = true) ∧
    ((commit st v).1 = st ∨
       (commit st v).1.queue = st.queue ++ [.Commit v]) := by
  cases h : st.isOpen <;> simp [commit, h]

/-- C7: `create_client` hands out a client whose sender is a clone of the
handle's coordinator sender, cloning the `Arc`-wrapped client yields the
same handle, and a command sent through any clone lands on the one
coordinator queue — the queue the handle's sender feeds — leaving every
other queue untouched (no second coordinator is created). -/
theorem create_client_shares_sender (s : StateSynchronizer)
    (c : StateSyncClient) (w : ChannelWorld) (m : CoordinatorMessage)
    (i : Nat) :
    ((s.create_client).coordinator_sender = s.coordinator_sender) ∧
    (c.cloneArc = c) ∧
    (sendVia w c.cloneArc m = sendVia w c m) ∧
    (sendVia w s.create_client m s.coordinator_sender
       = w s.coordinator_sender ++ [m]) ∧
    (sendVia w c m i = if i = c.coordinator_sender then w i ++ [m] else w i) := by
  refine ⟨rfl, rfl, rfl, ?_, rfl⟩
  simp [sendVia, StateSynchronizer.create_client]

/-- C3: over every sequence of coordinator events — `Commit` commands,
applied chunks, and the rest — `known_version` never decreases; and a chunk
application moves it only when the chunk starts exactly at
`known_version + 1`, so it never skips over an unverified gap. -/
theorem known_version_monotone (c : SyncCursor) (es : List CoordinatorEvent)
    (a b : Nat) :
    c.known_version ≤ (runEvents c es).known_version ∧
    (processEvent c (.chunkSuccess a b)).1.known_version =
      (if a = c.known_version + 1 ∧ a ≤ b then b else c.known_version) := by
  constructor
  · induction es generalizing c with
    | nil => simp [runEvents]
    | cons e es ih =>
      calc c.known_version ≤ (processEvent c e).1.known_version :=
             processEvent_known_version_le c e
        _ ≤ (runEvents (processEvent c e).1 es).known_version :=
             ih (processEvent c e).1
  · by_cases h : a = c.known_version + 1 ∧ a ≤ b
    · obtain ⟨h1, h2⟩ := h
      subst h1
      simp [processEvent, resolveReady, h2]
    · simp [processEvent, resolveReady, h]

theorem syncResult_mem_processEvent (c : SyncCursor) (e : CoordinatorEvent)
    (cb' : Nat) (o : Bool)
    (ho : CoordinatorOutput.syncResult cb' o ∈ (processEvent c e).2) :
    (o = true ∧ ∃ v, v ≤ (processEvent c e).1.known_version ∧
       ((v, cb') ∈ c.waiters ∨ e = .msg (.Requested ⟨v⟩ cb'))) ∨
    (o = false ∧ ∃ v, e = .retryExhausted v ∧ (v, cb') ∈ c.waiters) := by
  cases e with
  | msg m =>
    cases m with
    | Requested t cb2 =>
      by_cases h : t.version ≤ c.known_version
      · simp [processEvent, h] at ho
        obtain ⟨hcb, hob⟩ := ho
        subst hcb
        subst hob
        left
        refine ⟨rfl, t.version, ?_, Or.inr ?_⟩
        · simp [processEvent, h]
        · cases t
          rfl
      · simp [processEvent, h] at ho
    | Commit v0 =>
      by_cases h : v0 > c.known_version
      · simp [processEvent, resolveReady, h] at ho
        obtain ⟨a, b2, ⟨hmem, hle⟩, hcb, hob⟩ := ho
        subst hcb
        left
        refine ⟨hob, a, ?_, Or.inl hmem⟩
        simp [processEvent, resolveReady, h]
        omega
      · simp [processEvent, h] at ho
    | GetState cb2 => simp [processEvent] at ho
  | chunkSuccess start stop =>
    by_cases h : start = c.known_version + 1 ∧ start ≤ stop
    · obtain ⟨h1, h2⟩ := h
      subst h1
      simp [processEvent, resolveReady, h2] at ho
      obtain ⟨a, b2, ⟨hmem, hle⟩, hcb, hob⟩ := ho
      subst hcb
      left
      refine ⟨hob, a, ?_, Or.inl hmem⟩
      simp [processEvent, resolveReady, h2]
      omega
    · simp [processEvent, h] at ho
  | retryExhausted v0 =>
    simp [processEvent] at ho
    obtain ⟨a, b2, ⟨hmem, heq⟩, hcb, hob⟩ := ho
    subst hcb
    right
    refine ⟨hob, v0, rfl, ?_⟩
    have : (a, b2) = (v0, b2) := by rw [heq]
    rw [← this]
    exact hmem

theorem requested_low_target_resolves (c : SyncCursor)
    (t : LedgerInfoWithSignatures) (cb : Nat)
    (h : t.version ≤ c.known_version) :
    processEvent c (.msg (.Requested t cb)) = (c, [.syncResult cb true]) := by
  simp [processEvent, h]

theorem waiter_resolved_true (c : SyncCursor) (e : CoordinatorEvent)
    (v cb2 : Nat) (hw : (v, cb2) ∈ c.waiters)
    (hle : v ≤ (processEvent c e).1.known_version)
    (hadv : c.known_version < (processEvent c e).1.known_version) :
    CoordinatorOutput.syncResult cb2 true ∈ (processEvent c e).2 := by
  cases e with
  | msg m =>
    cases m with
    | Requested t cb3 =>
      by_cases h : t.version ≤ c.known_version <;>
        simp [processEvent, h] at hadv
    | Commit v0 =>
      by_cases h : v0 > c.known_version
      · simp [processEvent, resolveReady, h] at hle ⊢
        exact ⟨v, hw, hle⟩
      · simp [processEvent, h] at hadv
    | GetState cb3 => simp [processEvent] at hadv
  | chunkSuccess start stop =>
    by_cases h : start = c.known_version + 1 ∧ start ≤ stop
    · obtain ⟨h1, h2⟩ := h
      subst h1
      simp [processEvent, resolveReady, h2] at hle ⊢
      exact ⟨v, hw, hle⟩
    · simp [processEvent, h] at hadv
  | retryExhausted v0 => simp [processEvent] at hadv

theorem waiter_resolved_false (c : SyncCursor) (v cb2 : Nat)
    (hw : (v, cb2) ∈ c.waiters) :
    CoordinatorOutput.syncResult cb2 false ∈
      (processEvent c (.retryExhausted v)).2 := by
  simp [processEvent]
  exact hw

/-- C1: `sync_to(target)` enqueues a `Requested(target, completion)` command
and resolves with the coordinator's boolean reply — `Ok(b)` when the
coordinator answers `b`, a channel-closed error when the command channel is
closed (the send error) or when the coordinator dropped the reply channel
(canceled). On the coordinator side (modelled from the spec), replies are
sound and delivered: a waiter is answered `true` only once `known_version`
has reached its target's version and `false` only on retry exhaustion;
conversely a `Requested` whose target is already reached is answered `true`
immediately, any event that advances `known_version` to or past a pending
waiter's target resolves that waiter with `true`, and exhausting the retry
budget for a target resolves its waiters with `false` (unreachable). -/
theorem sync_to_contract (st : ChannelState) (t : LedgerInfoWithSignatures)
    (cb : Nat) (b : Bool) (c : SyncCursor) (e : CoordinatorEvent)
    (cb' v2 cb2 : Nat) (o : Bool)
    (ho : CoordinatorOutput.syncResult cb' o ∈ (processEvent c e).2) :
    ((sync_to st t cb (some b)).2 =
       if st.isOpen then Except.ok b else Except.error .sendError) ∧
    ((sync_to st t cb none).2 =
       Except.error (if st.isOpen then ClientError.canceled else .sendError)) ∧
    ((sync_to st t cb (some b)).1.queue =
       if st.isOpen then st.queue ++ [.Requested t cb] else st.queue) ∧
    ((o = true ∧ ∃ v, v ≤ (processEvent c e).1.known_version ∧
        ((v, cb') ∈ c.waiters ∨ e = .msg (.Requested ⟨v⟩ cb'))) ∨
     (o = false ∧ ∃ v, e = .retryExhausted v ∧ (v, cb') ∈ c.waiters)) ∧
    (t.version ≤ c.known_version →
      processEvent c (.msg (.Requested t cb)) = (c, [.syncResult cb true])) ∧
    ((v2, cb2) ∈ c.waiters → v2 ≤ (processEvent c e).1.known_version →
      c.known_version < (processEvent c e).1.known_version →
      CoordinatorOutput.syncResult cb2 true ∈ (processEvent c e).2) ∧
    ((v2, cb2) ∈ c.waiters →
      CoordinatorOutput.syncResult cb2 false ∈
        (processEvent c (.retryExhausted v2)).2) := by
  refine ⟨?_, ?_, ?_, syncResult_mem_processEvent c e cb' o ho,
    requested_low_target_resolves c t cb,
    waiter_resolved_true c e v2 cb2,
    waiter_resolved_false c v2 cb2⟩
  · cases h : st.isOpen <;> simp [sync_to, h]
  · cases h : st.isOpen <;> simp [sync_to, h]
  · cases h : st.isOpen <;> simp [sync_to, h]

/-- Witness for C1: on an open channel, with the coordinator at version 5
holding a waiter for version 9 with callback 8, a `Commit(10)` event
resolves that waiter with `true`; the immediate-resolution, delivery and
exhaustion clauses are all exercised at the same concrete state. -/
theorem sync_to_contract_witness :
    ((sync_to ⟨true, []⟩ ⟨3⟩ 7 (some true)).2 =
       if (ChannelState.mk true []).isOpen then Except.ok true
       else Except.error .sendError) ∧
    ((sync_to ⟨true, []⟩ ⟨3⟩ 7 none).2 =
       Except.error (if (ChannelState.mk true []).isOpen then
         ClientError.canceled else .sendError)) ∧
    ((sync_to ⟨true, []⟩ ⟨3⟩ 7 (some true)).1.queue =
       if (ChannelState.mk true []).isOpen then
         ([] : List CoordinatorMessage) ++ [.Requested ⟨3⟩ 7] else []) ∧
    ((true = true ∧ ∃ v,
        v ≤ (processEvent ⟨5, 9, [(9, 8)]⟩ (.msg (.Commit 10))).1.known_version ∧
        ((v, 8) ∈ (SyncCursor.mk 5 9 [(9, 8)]).waiters ∨
          CoordinatorEvent.msg (.Commit 10) = .msg (.Requested ⟨v⟩ 8))) ∨
     (true = false ∧ ∃ v,
        CoordinatorEvent.msg (.Commit 10) = .retryExhausted v ∧
        (v, 8) ∈ (SyncCursor.mk 5 9 [(9, 8)]).waiters)) ∧
    ((LedgerInfoWithSignatures.mk 3).version ≤
        (SyncCursor.mk 5 9 [(9, 8)]).known_version →
      processEvent ⟨5, 9, [(9, 8)]⟩ (.msg (.Requested ⟨3⟩ 7)) =
        (⟨5, 9, [(9, 8)]⟩, [.syncResult 7 true])) ∧
    ((9, 8) ∈ (SyncCursor.mk 5 9 [(9, 8)]).waiters →
      9 ≤ (processEvent ⟨5, 9, [(9, 8)]⟩ (.msg (.Commit 10))).1.known_version →
      (SyncCursor.mk 5 9 [(9, 8)]).known_version <
        (processEvent ⟨5, 9, [(9, 8)]⟩ (.msg (.Commit 10))).1.known_version →
      CoordinatorOutput.syncResult 8 true ∈
        (processEvent ⟨5, 9, [(9, 8)]⟩ (.msg (.Commit 10))).2) ∧
    ((9, 8) ∈ (SyncCursor.mk 5 9 [(9, 8)]).waiters →
      CoordinatorOutput.syncResult 8 false ∈
        (processEvent ⟨5, 9, [(9, 8)]⟩ (.retryExhausted 9)).2) :=
  sync_to_contract ⟨true, []⟩ ⟨3⟩ 7 true ⟨5, 9, [(9, 8)]⟩
    (.msg (.Commit 10)) 8 9 8 true (by decide)

theorem gen_accounts_new_spec (n : Nat) (hn : 0 < n) (storm : AccountStorm)
    (hs : AccountStorm.new.gen_accounts n = some storm) :
    storm.num_accounts = n ∧ storm.genesis_accounts.length = n ∧
    ∃ addrs, storm.round_accounts = [addrs] ∧ addrs.length = n * n := by
  have hn' : n ≠ 0 := by omega
  simp [AccountStorm.gen_accounts, AccountStorm.new, hn'] at hs
  subst hs
  refine ⟨rfl, gen_accounts_from_wallet_length _ _, _, rfl, ?_⟩
  simp [gen_accounts_from_wallet_length]

theorem flatMap_transfers_map_sentCoins (F n : Nat)
    (pairs : List (AccountData × List Nat))
    (hlen : ∀ p ∈ pairs, (p.2).length = n) :
    ((pairs.flatMap
        (fun p => (gen_transfers_to true p.2 F (localSender p.1.address)).1)).map
      LoadRequest.sentCoins) = List.replicate (pairs.length * n) F := by
  induction pairs with
  | nil => simp
  | cons p ps ih =>
    have hp := hlen p (List.mem_cons_self p ps)
    have hps : ∀ q ∈ ps, (q.2).length = n :=
      fun q hq => hlen q (List.mem_cons_of_mem p hq)
    simp only [List.flatMap_cons, List.map_append,
               gen_transfers_to_true_map_sentCoins, hp, ih hps,
               List.length_cons]
    rw [← List.replicate_add]
    ring_nf

/-- C6: with `num_accounts = n ≥ 1` accounts generated, every transfer of a
round-≤-1 load sends exactly `FREE_LUNCH / n` coins (`n * n` transfers in
all, one per genesis sender and round-1 recipient), so each genesis sender
sends `n * (FREE_LUNCH / n)` in total, which is at most `FREE_LUNCH`: the
remainder `FREE_LUNCH % n` is exactly what is never distributed. -/
theorem account_storm_free_lunch_division (n round : Nat)
    (storm : AccountStorm) (hn : 1 ≤ n) (hr : round ≤ 1)
    (hs : AccountStorm.new.gen_accounts n = some storm) :
    ∃ reqs, storm.gen_round_load true round = some (reqs, storm) ∧
      reqs.map LoadRequest.sentCoins =
        List.replicate (n * n) (FREE_LUNCH / n) ∧
      (∀ p ∈ storm.genesis_accounts.zip
          (chunks n (storm.round_accounts.headD [])),
        (((gen_transfers_to true p.2 (FREE_LUNCH / n)
            (localSender p.1.address)).1.map LoadRequest.sentCoins).sum =
          n * (FREE_LUNCH / n))) ∧
      n * (FREE_LUNCH / n) ≤ FREE_LUNCH ∧
      n * (FREE_LUNCH / n) + FREE_LUNCH % n = FREE_LUNCH := by
  obtain ⟨hnum, hgen, addrs, hra, haddrs⟩ :=
    gen_accounts_new_spec n (by omega) storm hs
  have hchunks := chunks_mul n (by omega) n addrs haddrs
  have hziplen : (storm.genesis_accounts.zip (chunks n addrs)).length = n := by
    simp [List.length_zip, hgen, hchunks.1]
  have hzipchunk : ∀ p ∈ storm.genesis_accounts.zip (chunks n addrs),
      (p.2).length = n := by
    intro p hp
    exact hchunks.2 p.2 (List.of_mem_zip hp).2
  have hnr : ¬ round > 1 := by omega
  have hn0 : ¬ storm.num_accounts = 0 := by omega
  refine ⟨(storm.genesis_accounts.zip (chunks n addrs)).flatMap
      (fun p => (gen_transfers_to true p.2 (FREE_LUNCH / n)
        (localSender p.1.address)).1), ?_, ?_, ?_, ?_, ?_⟩
  · simp [AccountStorm.gen_round_load, hnr, hn0, hra, hnum]
    omega
  · rw [flatMap_transfers_map_sentCoins _ _ _ hzipchunk, hziplen]
  · intro p hp
    rw [hra] at hp
    simp only [List.headD_cons] at hp ⊢
    rw [gen_transfers_to_true_map_sentCoins, List.sum_replicate,
        hzipchunk p hp, smul_eq_mul]
  · calc n * (FREE_LUNCH / n) = FREE_LUNCH / n * n := Nat.mul_comm _ _
      _ ≤ FREE_LUNCH := Nat.div_mul_le_self _ _
  · exact Nat.div_add_mod FREE_LUNCH n

/-- Witness for C6 at `n = 3`, round 1. -/
theorem account_storm_free_lunch_division_witness :
    ∃ reqs,
      ((AccountStorm.new.gen_accounts 3).getD AccountStorm.new).gen_round_load
          true 1 =
        some (reqs, (AccountStorm.new.gen_accounts 3).getD AccountStorm.new) ∧
      reqs.map LoadRequest.sentCoins =
        List.replicate (3 * 3) (FREE_LUNCH / 3) ∧
      (∀ p ∈ ((AccountStorm.new.gen_accounts 3).getD
            AccountStorm.new).genesis_accounts.zip
          (chunks 3 (((AccountStorm.new.gen_accounts 3).getD
            AccountStorm.new).round_accounts.headD [])),
        (((gen_transfers_to true p.2 (FREE_LUNCH / 3)
            (localSender p.1.address)).1.map LoadRequest.sentCoins).sum =
          3 * (FREE_LUNCH / 3))) ∧
      3 * (FREE_LUNCH / 3) ≤ FREE_LUNCH ∧
      3 * (FREE_LUNCH / 3) + FREE_LUNCH % 3 = FREE_LUNCH :=
  account_storm_free_lunch_division 3 1 _ (by decide) (by decide) (by rfl)
